import Mathlib

/-!
Shallow embedding of the voting / listing / comment subsystem of the
betternews repository (Hono + Drizzle + PostgreSQL), together with proofs of
the specification claims about it.

The embedding models the relational tables as Lean lists of rows and the
route handlers as pure functions over a `Store`.  The `posts` table and the
`post_upvotes` table are taken from `server/db/schemas/posts.ts` and
`server/db/schemas/upvotes.ts`; the route handlers are taken from the posts
router (`POST /`, `GET /`, `POST /:id/upvote`).
-/

namespace BetterNews

/-- Row of the `posts` table (`server/db/schemas/posts.ts`): serial id,
`user_id`, `title`, nullable `url`, nullable `content`, `points` (integer,
default 0), `comment_count` (default 0), `created_at` timestamp (modelled as
a natural number). -/
structure PostRow where
  id : Nat
  userId : String
  title : String
  url : Option String
  content : Option String
  points : Int
  commentCount : Nat
  createdAt : Nat
deriving DecidableEq, Repr

/-- Row of the `post_upvotes` table (`server/db/schemas/upvotes.ts`): serial
id, `post_id`, `user_id`.  The schema has NO unique constraint on the pair
(post_id, user_id); uniqueness of the pair is a behavioural invariant of the
toggle handler, not a database constraint. -/
structure UpvoteRow where
  id : Nat
  postId : Nat
  userId : String
deriving DecidableEq, Repr

/-- Row of the `comments` table (`db/schemas/comments.ts`): serial id,
`user_id`, `post_id`, nullable `parent_comment_id`, `content`, `depth`
(default 0), `comment_count` (default 0), `points` (default 0). -/
structure CommentRow where
  id : Nat
  userId : String
  postId : Nat
  parentCommentId : Option Nat
  content : String
  depth : Nat
  commentCount : Nat
  points : Int
deriving DecidableEq, Repr

/-- The relational store: the tables touched by the posts router, plus the
next values of the serial-id sequences.  `users` maps a user id to its
username (the `user` table is keyed by its primary key id). -/
structure Store where
  posts : List PostRow
  upvotes : List UpvoteRow
  comments : List CommentRow
  users : List (String × String)
  nextUpvoteId : Nat
  nextCommentId : Nat
deriving DecidableEq, Repr

/-- Well-formedness of the store, reflecting the primary-key constraints of
the schema: post ids are pairwise distinct, upvote ids are pairwise distinct,
and every upvote id is below the next serial value. -/
def Store.wf (s : Store) : Prop :=
  s.posts.Pairwise (fun a b => a.id ≠ b.id) ∧
  s.upvotes.Pairwise (fun a b => a.id ≠ b.id) ∧
  ∀ r ∈ s.upvotes, r.id < s.nextUpvoteId

/-- SELECT by primary key on the posts table: the row with the given id, if
any. -/
def getPost (s : Store) (postId : Nat) : Option PostRow :=
  (s.posts.filter (fun p => p.id == postId)).head?

/-- The first statement of the upvote transaction:
`select().from(postUpvotesTable).where(and(eq(postId), eq(userId))).limit(1)`. -/
def selectExistingUpvote (s : Store) (postId : Nat) (userId : String) :
    Option UpvoteRow :=
  (s.upvotes.filter (fun r => r.postId == postId && r.userId == userId)).head?

/-- The second statement of the upvote transaction:
`update(postsTable).set(points = points + pointsChange).where(eq(id)).returning(points)`.
Returns the updated store together with the `returning` value (the points of
the updated row, or none when no row matched). -/
def updatePostPoints (s : Store) (postId : Nat) (delta : Int) :
    Store × Option Int :=
  let posts := s.posts.map
    (fun p => if p.id == postId then { p with points := p.points + delta } else p)
  ({ s with posts := posts },
   ((posts.filter (fun p => p.id == postId)).head?).map (fun p => p.points))

/-- `delete(postUpvotesTable).where(eq(postUpvotesTable.id, existingUpvote.id))`. -/
def deleteUpvoteById (s : Store) (upvoteId : Nat) : Store :=
  { s with upvotes := s.upvotes.filter (fun r => r.id != upvoteId) }

/-- `insert(postUpvotesTable).values(postId, userId)`; the serial sequence
provides the id. -/
def insertUpvote (s : Store) (postId : Nat) (userId : String) : Store :=
  { s with
    upvotes := s.upvotes ++ [⟨s.nextUpvoteId, postId, userId⟩],
    nextUpvoteId := s.nextUpvoteId + 1 }

/-- What the `POST /:id/upvote` handler returns to the caller: the new store
(the committed transaction), the `count` field (the points returned by the
update) and the `isUpvoted` flag (`pointsChange > 0`). -/
structure ToggleResult where
  store : Store
  count : Int
  isUpvoted : Bool
deriving DecidableEq, Repr

/-- The `POST /:id/upvote` handler.  Inside one transaction it (1) selects
the existing upvote for (postId, userId) with limit 1, (2) sets
`pointsChange` to -1 when a record exists and +1 otherwise, (3) updates the
points of the post row and throws 404 when no row was updated (which rolls
back the whole transaction, hence the `none` result carries no store), and
(4) deletes the existing record or inserts a fresh one. -/
def toggleVote (s : Store) (postId : Nat) (userId : String) :
    Option ToggleResult :=
  let existingUpvote := selectExistingUpvote s postId userId
  let pointsChange : Int := if existingUpvote.isSome then -1 else 1
  let r1 := updatePostPoints s postId pointsChange
  match r1.2 with
  | none => none
  | some points =>
    let s2 :=
      match existingUpvote with
      | some r => deleteUpvoteById r1.1 r.id
      | none => insertUpvote r1.1 postId userId
    some ⟨s2, points, decide (pointsChange > 0)⟩

/-- The store after one call of the upvote route: the committed transaction,
or the unchanged store when the transaction rolled back with 404. -/
def applyToggle (s : Store) (op : Nat × String) : Store :=
  match toggleVote s op.1 op.2 with
  | some r => r.store
  | none => s

/-- The store after a sequence of upvote-route calls. -/
def runToggles (s : Store) (ops : List (Nat × String)) : Store :=
  ops.foldl applyToggle s

/-- Number of active vote records referencing a post. -/
def votesFor (s : Store) (postId : Nat) : Nat :=
  (s.upvotes.filter (fun r => r.postId == postId)).length

/-- Number of active vote records for one (post, voter) pair. -/
def pairVotes (s : Store) (postId : Nat) (userId : String) : Nat :=
  (s.upvotes.filter (fun r => r.postId == postId && r.userId == userId)).length

/-- `sortBySchema = z.enum(["recent", "points"])` from `shared/types.ts`. -/
inductive SortBy where
  | recent
  | points
deriving DecidableEq, Repr

/-- `orderBySchema = z.enum(["asc", "desc"])` from `shared/types.ts`. -/
inductive OrderBy where
  | asc
  | desc
deriving DecidableEq, Repr

/-- The validated query of `GET /`, the output of `paginationSchema`. -/
structure PaginationQuery where
  limit : Nat
  page : Nat
  sortBy : SortBy
  order : OrderBy
  author : Option String
  site : Option String
deriving DecidableEq, Repr

/-- `paginationSchema` from `shared/types.ts`: applies the zod defaults
`limit = 10`, `page = 1`, `sortBy = "points"`, `order = "asc"` when the
corresponding query parameter is absent. -/
def parsePagination (limit page : Option Nat) (sortBy : Option SortBy)
    (order : Option OrderBy) (author site : Option String) : PaginationQuery :=
  { limit := limit.getD 10
    page := page.getD 1
    sortBy := sortBy.getD SortBy.points
    order := order.getD OrderBy.asc
    author := author
    site := site }

/-- The WHERE clause shared by the count query and the page query of `GET /`:
`and(author ? eq(posts.userId, author) : undefined, site ? eq(posts.url, site) : undefined)`.
The SQL equality `url = site` is null-rejecting, so a row with a NULL url
never matches a site filter. -/
def postPred (author site : Option String) (p : PostRow) : Bool :=
  (match author with
   | some a => p.userId == a
   | none => true) &&
  (match site with
   | some st => p.url == some st
   | none => true)

/-- The count query of `GET /`:
`select(countDistinct(posts.id)).from(posts).where(...)`. -/
def countQuery (s : Store) (author site : Option String) : Nat :=
  (((s.posts.filter (postPred author site)).map (fun p => p.id)).dedup).length

/-- One output row of the `GET /` page query: the selected post columns, the
author columns from the left join on the user table, and the computed
`isUpvoted` flag. -/
structure PostView where
  id : Nat
  title : String
  url : Option String
  points : Int
  content : Option String
  createdAt : Nat
  commentCount : Nat
  author : Option (String × String)
  isUpvoted : Bool
deriving DecidableEq, Repr

/-- The rows a post row contributes to the page query after the joins.  The
left join on the user table resolves the author; when a user is logged in,
the query also left-joins `post_upvotes` on
`postId = posts.id AND userId = user.id` and computes
`isUpvoted = CASE WHEN upvotes.userId IS NOT NULL THEN true ELSE false END`,
producing one row per matching upvote record (or a single row with
`isUpvoted = false` when none matches); when nobody is logged in the flag is
the constant false. -/
def joinedRows (s : Store) (user : Option String) (p : PostRow) :
    List PostView :=
  let author := (s.users.find? (fun u => u.1 == p.userId)).map
    (fun u => (u.2, u.1))
  match user with
  | none => [⟨p.id, p.title, p.url, p.points, p.content, p.createdAt,
      p.commentCount, author, false⟩]
  | some uid =>
    let ms := s.upvotes.filter (fun r => r.postId == p.id && r.userId == uid)
    if ms.isEmpty then
      [⟨p.id, p.title, p.url, p.points, p.content, p.createdAt,
        p.commentCount, author, false⟩]
    else
      ms.map (fun _ => ⟨p.id, p.title, p.url, p.points, p.content,
        p.createdAt, p.commentCount, author, true⟩)

/-- The ORDER BY of the page query: `sortByColumn` is `points` when
`sortBy === "points"` and `createdAt` otherwise; `sortOrder` is `desc(col)`
when `order === "desc"` and `asc(col)` otherwise. -/
def sortLe (sortBy : SortBy) (order : OrderBy) (a b : PostView) : Bool :=
  match sortBy, order with
  | SortBy.points, OrderBy.asc => a.points ≤ b.points
  | SortBy.points, OrderBy.desc => b.points ≤ a.points
  | SortBy.recent, OrderBy.asc => a.createdAt ≤ b.createdAt
  | SortBy.recent, OrderBy.desc => b.createdAt ≤ a.createdAt

/-- Response of `GET /`: the page of rows plus the pagination block
`{ page, totalPages }`. -/
structure ListPostsResult where
  data : List PostView
  page : Nat
  totalPages : Nat
deriving DecidableEq, Repr

/-- The `GET /` handler.  `offset = (page - 1) * limit`; the count query runs
with the same WHERE clause as the page query; the page query joins, sorts by
the requested column and order, and applies LIMIT and OFFSET;
`totalPages = Math.ceil(count / limit)` (for natural numbers,
`(count + limit - 1) / limit`). -/
def listPosts (s : Store) (q : PaginationQuery) (user : Option String) :
    ListPostsResult :=
  let offset := (q.page - 1) * q.limit
  let count := countQuery s q.author q.site
  let rows := (s.posts.filter (postPred q.author q.site)).flatMap
    (joinedRows s user)
  let sorted := rows.mergeSort (sortLe q.sortBy q.order)
  { data := (sorted.drop offset).take q.limit
    page := q.page
    totalPages := (count + q.limit - 1) / q.limit }

/-!
The comments router is not part of the sources, only the `comments` table
schema and the shared types are; `createComment` below is therefore modelled
from the specification.
-/

/-- SELECT by primary key on the comments table. -/
def getComment (s : Store) (commentId : Nat) : Option CommentRow :=
  (s.comments.filter (fun c => c.id == commentId)).head?

/-- The transactional write of a comment creation: append the comment row
(the serial sequence provides its id) and increment the aggregate
`commentCount` of the parent post row; returns the new store and the id of
the created comment. -/
def insertCommentRow (s : Store) (authorId : String) (postId : Nat)
    (parentCommentId : Option Nat) (content : String) (depth : Nat) :
    Store × Nat :=
  ({ s with
      comments := s.comments ++
        [⟨s.nextCommentId, authorId, postId, parentCommentId, content,
          depth, 0, 0⟩],
      nextCommentId := s.nextCommentId + 1,
      posts := s.posts.map (fun p =>
        if p.id == postId then { p with commentCount := p.commentCount + 1 }
        else p) },
   s.nextCommentId)

/-- Modelled from the spec: the comments router (the `createComment`
operation of §6) is absent from the sources; only the `comments` table
schema is present.  Per the spec, creation fails `NotFound` when the post or
the named parent comment is absent; the new comment gets `depth = 0` when it
is top-level and `depth = parent.depth + 1` otherwise (computed at creation,
never recomputed); the parent POST aggregate `commentCount` is incremented
by one in the same transaction (ancestor comments are not bumped). -/
def createComment (s : Store) (authorId : String) (postId : Nat)
    (parentCommentId : Option Nat) (content : String) :
    Option (Store × Nat) :=
  match getPost s postId, parentCommentId with
  | none, _ => none
  | some _, none =>
    some (insertCommentRow s authorId postId none content 0)
  | some _, some pid =>
    match getComment s pid with
    | none => none
    | some parent =>
      some (insertCommentRow s authorId postId (some pid) content
        (parent.depth + 1))

/-- The depth invariant of the comments table: a top-level comment has depth
0 and a reply has depth exactly one greater than the depth of its parent,
which exists in the table. -/
def DepthInv (s : Store) : Prop :=
  ∀ c ∈ s.comments,
    match c.parentCommentId with
    | none => c.depth = 0
    | some pid => ∃ parent, getComment s pid = some parent ∧
        c.depth = parent.depth + 1

/-!
Validation of `POST /` (`createPostSchema` in `shared/types.ts`).  The
schema picks `url`, `title`, `content` from `insertPostSchema`
(`db/schemas/posts.ts`): `title` is a string of at least 3 characters, `url`
is optional and must either pass the zod URL-format check after trimming or
be the empty literal, `content` is an optional string.  The refinement is
`data.url || data.content`: javascript truthiness, so an absent field and
the empty string both count as missing.  The zod URL-format check itself
belongs to the excluded validation library and is passed in as a parameter.
-/

/-- Javascript truthiness of an optional string field: absent and the empty
string are falsy. -/
def truthy : Option String → Bool
  | none => false
  | some s => s ≠ ""

/-- The `.trim()` transform of the zod chain: strip leading and trailing
whitespace (written over the character list so that it is kernel-reducible).
-/
def strTrim (s : String) : String :=
  ⟨((s.data.dropWhile Char.isWhitespace).reverse.dropWhile
      Char.isWhitespace).reverse⟩

/-- Whether the `url` field passes `z.string().trim().url().optional().or(z.literal(""))`,
given the URL-format check `urlOk` of the validation library. -/
def urlFieldOk (urlOk : String → Bool) : Option String → Bool
  | none => true
  | some s => urlOk (strTrim s) || s == ""

/-- The parsed value of the `url` field (the `.trim()` transform applies on
the URL branch). -/
def parsedUrl : Option String → Option String
  | none => none
  | some s => some (strTrim s)

/-- Whether `createPostSchema` accepts a form, given the URL-format check
`urlOk` of the validation library: the picked field checks plus the
refinement `data.url || data.content`. -/
def createPostAccepts (urlOk : String → Bool) (title : String)
    (url content : Option String) : Bool :=
  (3 ≤ title.length) && urlFieldOk urlOk url &&
    (truthy (parsedUrl url) || truthy content)

/-!
The race model for the upvote transaction.  The transaction reads vote
existence from `post_upvotes` FIRST and only afterwards runs the UPDATE on
the posts row, which is the statement that takes the row-level lock.  Under
READ COMMITTED (the default; the transaction requests no stronger isolation
and no `FOR UPDATE`), two concurrent executions for the same (post, voter)
pair can therefore both run their existence SELECT before either UPDATE.
`racedDoubleToggle` executes exactly that schedule, built from the same
statement functions as `toggleVote`: both SELECTs see the initial committed
state; transaction A then locks the row, updates, mutates the vote record
and commits; transaction B, whose UPDATE was blocked on the row lock,
resumes against the state A committed (READ COMMITTED update semantics) and
commits its own mutation. -/
def racedDoubleToggle (s : Store) (postId : Nat) (userId : String) :
    Option Store :=
  let existingA := selectExistingUpvote s postId userId
  let existingB := selectExistingUpvote s postId userId
  let pointsChangeA : Int := if existingA.isSome then -1 else 1
  let pointsChangeB : Int := if existingB.isSome then -1 else 1
  let rA := updatePostPoints s postId pointsChangeA
  match rA.2 with
  | none => none
  | some _ =>
    let s2 :=
      match existingA with
      | some r => deleteUpvoteById rA.1 r.id
      | none => insertUpvote rA.1 postId userId
    let rB := updatePostPoints s2 postId pointsChangeB
    match rB.2 with
    | none => none
    | some _ =>
      let s4 :=
        match existingB with
        | some r => deleteUpvoteById rB.1 r.id
        | none => insertUpvote rB.1 postId userId
      some s4

/-- The single page-query row a post contributes when the at-most-one-record
invariant holds: the `isUpvoted` flag is the existence of a vote record by
the requesting actor on the post (false when nobody is logged in). -/
def postView (s : Store) (user : Option String) (p : PostRow) : PostView :=
  ⟨p.id, p.title, p.url, p.points, p.content, p.createdAt, p.commentCount,
   (s.users.find? (fun u => u.1 == p.userId)).map (fun u => (u.2, u.1)),
   match user with
   | none => false
   | some uid => decide (0 < pairVotes s p.id uid)⟩

/-!
Concrete stores used by the witness theorems.
-/

/-- A store with one post (id 1, zero points, no votes) and two users. -/
def demoStore : Store :=
  ⟨[⟨1, "alice", "hello", none, some "body", 0, 0, 5⟩],
   [], [], [("alice", "Alice"), ("bob", "Bob")], 1, 1⟩

/-- The demo store after bob posts a top-level comment on post 1: the comment
row is appended with depth 0 and the aggregate comment count of the post is
bumped. -/
def demoStoreAfterComment : Store :=
  ⟨[⟨1, "alice", "hello", none, some "body", 0, 1, 5⟩],
   [], [⟨1, "bob", 1, none, "top", 0, 0, 0⟩],
   [("alice", "Alice"), ("bob", "Bob")], 1, 2⟩

/-- A store with three posts of distinct points and creation times, one
existing vote by bob on post 2. -/
def listDemoStore : Store :=
  ⟨[⟨1, "alice", "a", some "https://a.example", none, 5, 0, 10⟩,
    ⟨2, "alice", "b", none, some "x", 1, 0, 11⟩,
    ⟨3, "carol", "c", none, some "y", 3, 0, 12⟩],
   [⟨1, 2, "bob"⟩],
   [], [("alice", "Alice"), ("bob", "Bob"), ("carol", "Carol")], 2, 1⟩

/-- At most one active vote record per (post, voter) pair: the behavioural
invariant corresponding to "existence of the record IS the upvoted state". -/
def PairUnique (s : Store) : Prop :=
  ∀ t v, pairVotes s t v ≤ 1

/-!
Helper lemmas about the statement functions.
-/

theorem upvotes_updatePostPoints (s : Store) (t : Nat) (δ : Int) :
    ((updatePostPoints s t δ).1).upvotes = s.upvotes := rfl

theorem nextUpvoteId_updatePostPoints (s : Store) (t : Nat) (δ : Int) :
    ((updatePostPoints s t δ).1).nextUpvoteId = s.nextUpvoteId := rfl

theorem posts_deleteUpvoteById (s : Store) (u : Nat) :
    (deleteUpvoteById s u).posts = s.posts := rfl

theorem posts_insertUpvote (s : Store) (t : Nat) (v : String) :
    (insertUpvote s t v).posts = s.posts := rfl

theorem select_none_iff (s : Store) (t : Nat) (v : String) :
    selectExistingUpvote s t v = none ↔ pairVotes s t v = 0 := by
  unfold selectExistingUpvote pairVotes
  rw [List.head?_eq_none_iff, List.length_eq_zero]

theorem select_some_spec {s : Store} {t : Nat} {v : String} {r : UpvoteRow}
    (h : selectExistingUpvote s t v = some r) :
    r.postId = t ∧ r.userId = v ∧ r ∈ s.upvotes := by
  unfold selectExistingUpvote at h
  obtain ⟨ys, hys⟩ := List.head?_eq_some_iff.1 h
  have hmem : r ∈ s.upvotes.filter
      (fun x => x.postId == t && x.userId == v) := by
    rw [hys]; exact List.mem_cons_self r ys
  have := List.mem_filter.1 hmem
  have h2 := this.2
  simp only [Bool.and_eq_true, beq_iff_eq] at h2
  exact ⟨h2.1, h2.2, this.1⟩

theorem countP_delete {l : List UpvoteRow}
    (hw : l.Pairwise (fun a b => a.id ≠ b.id)) {r : UpvoteRow} (hr : r ∈ l)
    (q : UpvoteRow → Bool) :
    l.countP (fun a => q a && a.id != r.id) + (if q r then 1 else 0)
      = l.countP q := by
  induction l with
  | nil => cases hr
  | cons x xs ih =>
    rw [List.pairwise_cons] at hw
    rcases List.mem_cons.1 hr with rfl | hxs
    · have hcong : xs.countP (fun a => q a && a.id != r.id)
          = xs.countP q := by
        apply List.countP_congr
        intro y hy
        have : (y.id != r.id) = true := by
          simpa using (hw.1 y hy).symm
        simp [this]
      rw [List.countP_cons, List.countP_cons, hcong]
      have : (q r && (r.id != r.id)) = false := by simp
      simp only [this]
      simp
    · have hxne : (x.id != r.id) = true := by
        simpa using hw.1 r hxs
      rw [List.countP_cons, List.countP_cons]
      have hx : (q x && (x.id != r.id)) = q x := by
        rw [hxne]; exact Bool.and_true _
      rw [hx]
      have := ih hw.2 hxs
      omega

theorem length_filter_delete {l : List UpvoteRow}
    (hw : l.Pairwise (fun a b => a.id ≠ b.id)) {r : UpvoteRow} (hr : r ∈ l)
    (q : UpvoteRow → Bool) :
    ((l.filter (fun x => x.id != r.id)).filter q).length
      + (if q r then 1 else 0) = (l.filter q).length := by
  have h1 := List.countP_eq_length_filter (p := q)
    (l := l.filter (fun x => x.id != r.id))
  have h2 := List.countP_filter (p := q) (q := fun x => x.id != r.id) (l := l)
  have h3 := List.countP_eq_length_filter (p := q) (l := l)
  rw [← h1, h2, ← h3]
  exact countP_delete hw hr q

theorem length_filter_append_single (l : List UpvoteRow) (x : UpvoteRow)
    (q : UpvoteRow → Bool) :
    ((l ++ [x]).filter q).length
      = (l.filter q).length + (if q x then 1 else 0) := by
  rw [List.filter_append]
  simp [List.filter_cons]
  split <;> simp

theorem filter_id_map_idPres (f : PostRow → PostRow)
    (hf : ∀ p, (f p).id = p.id) (q : Nat) (l : List PostRow) :
    (l.map f).filter (fun p => p.id == q)
      = (l.filter (fun p => p.id == q)).map f := by
  induction l with
  | nil => rfl
  | cons x xs ih =>
    simp only [List.map_cons, List.filter_cons, hf]
    by_cases hx : (x.id == q) = true <;> simp [hx, ih]

theorem getPost_updatePostPoints (s : Store) (t : Nat) (δ : Int) :
    getPost (updatePostPoints s t δ).1 t
      = (getPost s t).map (fun p => { p with points := p.points + δ }) := by
  unfold getPost updatePostPoints
  simp only []
  rw [filter_id_map_idPres _ (by
    intro p
    by_cases h : (p.id == t) = true <;> simp [h])]
  rw [List.head?_map]
  cases hh : (s.posts.filter (fun p => p.id == t)).head? with
  | none => rfl
  | some p =>
    obtain ⟨ys, hys⟩ := List.head?_eq_some_iff.1 hh
    have hmem : p ∈ s.posts.filter (fun x => x.id == t) := by
      rw [hys]; exact List.mem_cons_self p ys
    have hid : p.id = t := by simpa using (List.mem_filter.1 hmem).2
    simp [hid]

theorem getPost_updatePostPoints_other (s : Store) {t t' : Nat} (δ : Int)
    (h : t' ≠ t) :
    getPost (updatePostPoints s t δ).1 t' = getPost s t' := by
  unfold getPost updatePostPoints
  simp only []
  rw [filter_id_map_idPres _ (by
    intro p
    by_cases hx : (p.id == t) = true <;> simp [hx])]
  rw [List.head?_map]
  cases hh : (s.posts.filter (fun p => p.id == t')).head? with
  | none => rfl
  | some p =>
    obtain ⟨ys, hys⟩ := List.head?_eq_some_iff.1 hh
    have hmem : p ∈ s.posts.filter (fun x => x.id == t') := by
      rw [hys]; exact List.mem_cons_self p ys
    have hid : p.id = t' := by simpa using (List.mem_filter.1 hmem).2
    simp [hid, h]

theorem updatePostPoints_returning (s : Store) (t : Nat) (δ : Int) :
    (updatePostPoints s t δ).2
      = (getPost s t).map (fun p => p.points + δ) := by
  have : (updatePostPoints s t δ).2
      = (getPost (updatePostPoints s t δ).1 t).map (fun p => p.points) := rfl
  rw [this, getPost_updatePostPoints]
  cases getPost s t <;> rfl

theorem getPost_insertUpvote (s : Store) (t : Nat) (v : String) (x : Nat) :
    getPost (insertUpvote s t v) x = getPost s x := rfl

theorem getPost_deleteUpvoteById (s : Store) (u : Nat) (x : Nat) :
    getPost (deleteUpvoteById s u) x = getPost s x := rfl

theorem id_update_aux (t : Nat) (δ : Int) (p : PostRow) :
    (if p.id == t then { p with points := p.points + δ } else p).id = p.id := by
  by_cases hx : (p.id == t) = true <;> simp [hx]

theorem wf_updatePostPoints {s : Store} (t : Nat) (δ : Int) (h : s.wf) :
    ((updatePostPoints s t δ).1).wf := by
  obtain ⟨h1, h2, h3⟩ := h
  refine ⟨?_, h2, h3⟩
  unfold updatePostPoints
  simp only []
  rw [List.pairwise_map]
  exact h1.imp (fun hab => by
    rw [id_update_aux, id_update_aux]; exact hab)

theorem wf_deleteUpvoteById {s : Store} (u : Nat) (h : s.wf) :
    (deleteUpvoteById s u).wf := by
  obtain ⟨h1, h2, h3⟩ := h
  refine ⟨h1, ?_, ?_⟩
  · exact List.Pairwise.sublist (List.filter_sublist _) h2
  · intro r hr
    exact h3 r (List.mem_of_mem_filter hr)

theorem wf_insertUpvote {s : Store} (t : Nat) (v : String) (h : s.wf) :
    (insertUpvote s t v).wf := by
  obtain ⟨h1, h2, h3⟩ := h
  refine ⟨h1, ?_, ?_⟩
  · show List.Pairwise _ (s.upvotes ++ [⟨s.nextUpvoteId, t, v⟩])
    rw [List.pairwise_append]
    refine ⟨h2, List.pairwise_singleton _ _, ?_⟩
    intro a ha b hb
    have hb' : b = ⟨s.nextUpvoteId, t, v⟩ := by simpa using hb
    have := h3 a ha
    rw [hb']
    exact fun hcon => absurd (hcon ▸ this) (lt_irrefl _)
  · intro r hr
    have hr2 : r ∈ s.upvotes ++ [(⟨s.nextUpvoteId, t, v⟩ : UpvoteRow)] := hr
    rcases List.mem_append.1 hr2 with hro | hrn
    · exact Nat.lt_succ_of_lt (h3 r hro)
    · have : r = ⟨s.nextUpvoteId, t, v⟩ := by simpa using hrn
      rw [this]
      exact Nat.lt_succ_self _

theorem toggleVote_insert_eq {s : Store} {t : Nat} {v : String} {p : PostRow}
    (h0 : selectExistingUpvote s t v = none) (hp : getPost s t = some p) :
    toggleVote s t v
      = some ⟨insertUpvote (updatePostPoints s t 1).1 t v, p.points + 1, true⟩ := by
  simp [toggleVote, h0, updatePostPoints_returning, hp]

theorem toggleVote_delete_eq {s : Store} {t : Nat} {v : String}
    {r : UpvoteRow} {p : PostRow}
    (hr : selectExistingUpvote s t v = some r) (hp : getPost s t = some p) :
    toggleVote s t v
      = some ⟨deleteUpvoteById (updatePostPoints s t (-1)).1 r.id,
          p.points + (-1), false⟩ := by
  simp [toggleVote, hr, updatePostPoints_returning, hp]

theorem toggleVote_none_iff (s : Store) (t : Nat) (v : String) :
    toggleVote s t v = none ↔ getPost s t = none := by
  cases hp : getPost s t with
  | none => simp [toggleVote, updatePostPoints_returning, hp]
  | some p =>
    cases hsel : selectExistingUpvote s t v with
    | none => rw [toggleVote_insert_eq hsel hp]; simp
    | some r => rw [toggleVote_delete_eq hsel hp]; simp

theorem votesFor_insert_self (s : Store) (t : Nat) (v : String) :
    votesFor (insertUpvote s t v) t = votesFor s t + 1 := by
  unfold votesFor insertUpvote
  rw [length_filter_append_single]
  simp

theorem votesFor_insert_other (s : Store) (t : Nat) (v : String) {x : Nat}
    (h : x ≠ t) :
    votesFor (insertUpvote s t v) x = votesFor s x := by
  unfold votesFor insertUpvote
  rw [length_filter_append_single]
  have hne : ¬t = x := fun hc => h hc.symm
  simp [hne]

theorem pairVotes_insert_self (s : Store) (t : Nat) (v : String) :
    pairVotes (insertUpvote s t v) t v = pairVotes s t v + 1 := by
  unfold pairVotes insertUpvote
  rw [length_filter_append_single]
  simp

theorem pairVotes_insert_other (s : Store) (t : Nat) (v : String)
    {x : Nat} {w : String} (h : ¬(x = t ∧ w = v)) :
    pairVotes (insertUpvote s t v) x w = pairVotes s x w := by
  unfold pairVotes insertUpvote
  rw [length_filter_append_single]
  have : ((⟨s.nextUpvoteId, t, v⟩ : UpvoteRow).postId == x
      && (⟨s.nextUpvoteId, t, v⟩ : UpvoteRow).userId == w) = false := by
    simp only [Bool.and_eq_false_iff, beq_eq_false_iff_ne]
    by_cases hx : x = t
    · right
      exact fun hc => h ⟨hx, hc.symm⟩
    · left
      exact fun hc => hx hc.symm
  rw [this]
  simp

theorem votesFor_delete {s : Store} {r : UpvoteRow}
    (hw : s.upvotes.Pairwise (fun a b => a.id ≠ b.id)) (hr : r ∈ s.upvotes)
    (x : Nat) :
    votesFor (deleteUpvoteById s r.id) x + (if r.postId = x then 1 else 0)
      = votesFor s x := by
  have := length_filter_delete hw hr (fun a => a.postId == x)
  unfold votesFor deleteUpvoteById
  simp only []
  rw [← this]
  by_cases hc : r.postId = x <;> simp [hc]

theorem pairVotes_delete {s : Store} {r : UpvoteRow}
    (hw : s.upvotes.Pairwise (fun a b => a.id ≠ b.id)) (hr : r ∈ s.upvotes)
    (x : Nat) (w : String) :
    pairVotes (deleteUpvoteById s r.id) x w
        + (if r.postId = x ∧ r.userId = w then 1 else 0)
      = pairVotes s x w := by
  have := length_filter_delete hw hr (fun a => a.postId == x && a.userId == w)
  unfold pairVotes deleteUpvoteById
  simp only []
  rw [← this]
  by_cases hc : r.postId = x ∧ r.userId = w
  · simp [hc.1, hc.2]
  · have : (r.postId == x && r.userId == w) = false := by
      rw [Classical.not_and_iff_or_not_not] at hc
      rcases hc with hc | hc <;> simp [hc]
    simp [this, hc]

theorem toggle_success_spec {s : Store} {t : Nat} {v : String} {p : PostRow}
    (hwf : s.wf) (hp : getPost s t = some p) :
    ∃ res, toggleVote s t v = some res ∧
      res.store.wf ∧
      getPost res.store t
        = some { p with
            points := p.points + (if pairVotes s t v = 0 then 1 else -1) } ∧
      (∀ x, x ≠ t → getPost res.store x = getPost s x) ∧
      votesFor res.store t + (if pairVotes s t v = 0 then 0 else 1)
        = votesFor s t + (if pairVotes s t v = 0 then 1 else 0) ∧
      (∀ x, x ≠ t → votesFor res.store x = votesFor s x) ∧
      pairVotes res.store t v + (if pairVotes s t v = 0 then 0 else 1)
        = pairVotes s t v + (if pairVotes s t v = 0 then 1 else 0) ∧
      (∀ x w, ¬(x = t ∧ w = v) →
        pairVotes res.store x w = pairVotes s x w) ∧
      res.count = p.points + (if pairVotes s t v = 0 then 1 else -1) ∧
      res.isUpvoted = decide (pairVotes s t v = 0) ∧
      res.store.comments = s.comments := by
  cases hsel : selectExistingUpvote s t v with
  | none =>
    have h0 : pairVotes s t v = 0 := (select_none_iff s t v).1 hsel
    refine ⟨_, toggleVote_insert_eq hsel hp, ?_, ?_, ?_, ?_, ?_, ?_, ?_, ?_,
      ?_, ?_⟩
    · exact wf_insertUpvote _ _ (wf_updatePostPoints _ _ hwf)
    · rw [if_pos h0, getPost_insertUpvote, getPost_updatePostPoints, hp]
      rfl
    · intro x hx
      rw [getPost_insertUpvote, getPost_updatePostPoints_other _ _ hx]
    · rw [if_pos h0, if_pos h0, votesFor_insert_self]
      rfl
    · intro x hx
      exact votesFor_insert_other _ _ _ hx
    · rw [if_pos h0, if_pos h0, pairVotes_insert_self]
      rfl
    · intro x w hxw
      exact pairVotes_insert_other _ _ _ hxw
    · rw [if_pos h0]
    · simp [h0]
    · rfl
  | some r =>
    obtain ⟨hrt, hrv, hrmem⟩ := select_some_spec hsel
    have h0 : ¬pairVotes s t v = 0 := by
      intro hc
      rw [← select_none_iff] at hc
      rw [hsel] at hc
      cases hc
    have hw2 : s.upvotes.Pairwise (fun a b => a.id ≠ b.id) := hwf.2.1
    refine ⟨_, toggleVote_delete_eq hsel hp, ?_, ?_, ?_, ?_, ?_, ?_, ?_, ?_,
      ?_, ?_⟩
    · exact wf_deleteUpvoteById _ (wf_updatePostPoints _ _ hwf)
    · rw [if_neg h0, getPost_deleteUpvoteById, getPost_updatePostPoints, hp]
      rfl
    · intro x hx
      rw [getPost_deleteUpvoteById, getPost_updatePostPoints_other _ _ hx]
    · rw [if_neg h0, if_neg h0]
      have := votesFor_delete (s := (updatePostPoints s t (-1)).1)
        hw2 hrmem t
      rw [if_pos hrt] at this
      rw [Nat.add_zero]
      exact this
    · intro x hx
      have := votesFor_delete (s := (updatePostPoints s t (-1)).1)
        hw2 hrmem x
      have hcond : ¬r.postId = x := by rw [hrt]; exact fun hc => hx hc.symm
      rw [if_neg hcond] at this
      simpa using this
    · rw [if_neg h0, if_neg h0]
      have := pairVotes_delete (s := (updatePostPoints s t (-1)).1)
        hw2 hrmem t v
      rw [if_pos ⟨hrt, hrv⟩] at this
      rw [Nat.add_zero]
      exact this
    · intro x w hxw
      have := pairVotes_delete (s := (updatePostPoints s t (-1)).1)
        hw2 hrmem x w
      have hcond : ¬(r.postId = x ∧ r.userId = w) := by
        rw [hrt, hrv]
        exact fun hc => hxw ⟨hc.1.symm, hc.2.symm⟩
      rw [if_neg hcond] at this
      simpa using this
    · rw [if_neg h0]
    · simp [h0]
    · rfl

theorem getPost_some_id {s : Store} {t : Nat} {p : PostRow}
    (h : getPost s t = some p) : p.id = t := by
  unfold getPost at h
  obtain ⟨ys, hys⟩ := List.head?_eq_some_iff.1 h
  have hmem : p ∈ s.posts.filter (fun x => x.id == t) := by
    rw [hys]; exact List.mem_cons_self p ys
  simpa using (List.mem_filter.1 hmem).2

theorem applyToggle_of_none {s : Store} {op : Nat × String}
    (h : getPost s op.1 = none) : applyToggle s op = s := by
  unfold applyToggle
  rw [(toggleVote_none_iff s op.1 op.2).2 h]

theorem applyToggle_of_some {s : Store} {op : Nat × String}
    {res : ToggleResult} (h : toggleVote s op.1 op.2 = some res) :
    applyToggle s op = res.store := by
  unfold applyToggle
  rw [h]

theorem runToggles_cons (s : Store) (op : Nat × String)
    (ops : List (Nat × String)) :
    runToggles s (op :: ops) = runToggles (applyToggle s op) ops := rfl

theorem pairVotes_le_votesFor (s : Store) (t : Nat) (v : String) :
    pairVotes s t v ≤ votesFor s t := by
  unfold pairVotes votesFor
  rw [← List.countP_eq_length_filter, ← List.countP_eq_length_filter]
  apply List.countP_mono_left
  intro x hx hq
  simp only [Bool.and_eq_true] at hq
  exact hq.1

theorem applyToggle_points_step (T : Nat) {s : Store} (op : Nat × String)
    (hwf : s.wf)
    (h : (getPost s T).map (fun p => p.points)
      = some ((votesFor s T : Nat) : Int)) :
    (applyToggle s op).wf ∧
      (getPost (applyToggle s op) T).map (fun p => p.points)
        = some ((votesFor (applyToggle s op) T : Nat) : Int) := by
  cases hq : getPost s op.1 with
  | none =>
    rw [applyToggle_of_none hq]
    exact ⟨hwf, h⟩
  | some q =>
    obtain ⟨res, htv, hrwf, hgT, hgO, hvT, hvO, hpT, hpO, hcnt, hflag, hcm⟩ :=
      toggle_success_spec (t := op.1) (v := op.2) hwf hq
    rw [applyToggle_of_some htv]
    refine ⟨hrwf, ?_⟩
    by_cases hT : op.1 = T
    · subst hT
      rw [hq] at h
      have hq2 : q.points = ((votesFor s op.1 : Nat) : Int) := by
        simpa using h
      rw [hgT]
      by_cases h0 : pairVotes s op.1 op.2 = 0
      · simp [h0] at hvT ⊢
        rw [hq2]
        omega
      · simp [h0] at hvT ⊢
        rw [hq2]
        omega
    · have hT2 : T ≠ op.1 := fun hc => hT hc.symm
      rw [hgO T hT2, hvO T hT2]
      exact h

theorem runToggles_points_inv (T : Nat) (ops : List (Nat × String)) :
    ∀ (s : Store), s.wf →
      (getPost s T).map (fun p => p.points)
        = some ((votesFor s T : Nat) : Int) →
      (runToggles s ops).wf ∧
        (getPost (runToggles s ops) T).map (fun p => p.points)
          = some ((votesFor (runToggles s ops) T : Nat) : Int) := by
  induction ops with
  | nil => exact fun s hwf h => ⟨hwf, h⟩
  | cons op ops ih =>
    intro s hwf h
    rw [runToggles_cons]
    have hstep := applyToggle_points_step T op hwf h
    exact ih _ hstep.1 hstep.2

theorem applyToggle_pairUnique_step {s : Store} (op : Nat × String)
    (hwf : s.wf) (hpu : PairUnique s) :
    (applyToggle s op).wf ∧ PairUnique (applyToggle s op) := by
  cases hq : getPost s op.1 with
  | none =>
    rw [applyToggle_of_none hq]
    exact ⟨hwf, hpu⟩
  | some q =>
    obtain ⟨res, htv, hrwf, hgT, hgO, hvT, hvO, hpT, hpO, hcnt, hflag, hcm⟩ :=
      toggle_success_spec (t := op.1) (v := op.2) hwf hq
    rw [applyToggle_of_some htv]
    refine ⟨hrwf, ?_⟩
    intro x w
    by_cases hxw : x = op.1 ∧ w = op.2
    · obtain ⟨rfl, rfl⟩ := hxw
      have hx := hpu op.1 op.2
      by_cases h0 : pairVotes s op.1 op.2 = 0
      · simp [h0] at hpT
        omega
      · simp [h0] at hpT
        omega
    · rw [hpO x w hxw]
      exact hpu x w

theorem runToggles_pairUnique (ops : List (Nat × String)) :
    ∀ (s : Store), s.wf → PairUnique s →
      (runToggles s ops).wf ∧ PairUnique (runToggles s ops) := by
  induction ops with
  | nil => exact fun s hwf h => ⟨hwf, h⟩
  | cons op ops ih =>
    intro s hwf h
    rw [runToggles_cons]
    have hstep := applyToggle_pairUnique_step op hwf h
    exact ih _ hstep.1 hstep.2

/-- Claim C1: for every post T and every finite sequence of toggleVote calls
applied to a store in which T starts with points 0 and no vote records, after
the sequence completes the points of T equal the number of active vote
records referencing T (the signed count of active vote records: every record
counts +1, there are no downvotes). -/
theorem claim1_points_eq_vote_count (s : Store) (T : Nat) (p : PostRow)
    (ops : List (Nat × String)) (hwf : s.wf) (hp : getPost s T = some p)
    (hpts : p.points = 0) (hv : votesFor s T = 0) :
    (getPost (runToggles s ops) T).map (fun q => q.points)
      = some ((votesFor (runToggles s ops) T : Nat) : Int) := by
  have h : (getPost s T).map (fun q => q.points)
      = some ((votesFor s T : Nat) : Int) := by
    rw [hp, hv]
    simp [hpts]
  exact (runToggles_points_inv T ops s hwf h).2

/-- Witness for claim C1 at a concrete store and toggle sequence. -/
theorem claim1_witness :
    (getPost (runToggles demoStore [(1, "bob"), (1, "carol"), (1, "bob")]) 1).map
        (fun q => q.points)
      = some ((votesFor
          (runToggles demoStore [(1, "bob"), (1, "carol"), (1, "bob")]) 1
            : Nat) : Int) :=
  claim1_points_eq_vote_count demoStore 1
    ⟨1, "alice", "hello", none, some "body", 0, 0, 5⟩
    [(1, "bob"), (1, "carol"), (1, "bob")]
    (by constructor
        · decide
        · constructor
          · decide
          · decide)
    (by decide) (by decide) (by decide)

/-- Claim C2: for an existing post T and voter V (with the behavioural
at-most-one-record invariant holding for the pair), toggling twice in
sequence restores the original points of T and the original vote-existence
state of the pair. -/
theorem claim2_toggle_twice (s : Store) (T : Nat) (V : String) (p : PostRow)
    (hwf : s.wf) (hp : getPost s T = some p) (hpair : pairVotes s T V ≤ 1) :
    ∃ r1 r2, toggleVote s T V = some r1 ∧ toggleVote r1.store T V = some r2 ∧
      (getPost r2.store T).map (fun q => q.points) = some p.points ∧
      (0 < pairVotes r2.store T V ↔ 0 < pairVotes s T V) := by
  obtain ⟨r1, htv1, hwf1, hgT1, _, _, _, hpT1, _, _, _, _⟩ :=
    toggle_success_spec (t := T) (v := V) hwf hp
  obtain ⟨r2, htv2, hwf2, hgT2, _, _, _, hpT2, _, _, _, _⟩ :=
    toggle_success_spec (t := T) (v := V) hwf1 hgT1
  refine ⟨r1, r2, htv1, htv2, ?_, ?_⟩
  · rw [hgT2]
    simp only [Option.map_some']
    by_cases h0 : pairVotes s T V = 0
    · have h1 : pairVotes r1.store T V = 1 := by
        simp [h0] at hpT1
        exact hpT1
      have h1ne : ¬pairVotes r1.store T V = 0 := by omega
      simp [h0, h1ne]
    · have h1 : pairVotes r1.store T V = 0 := by
        simp [h0] at hpT1
        omega
      simp [h0, h1]
  · by_cases h0 : pairVotes s T V = 0
    · have h1 : pairVotes r1.store T V = 1 := by
        simp [h0] at hpT1
        exact hpT1
      have h1ne : ¬pairVotes r1.store T V = 0 := by omega
      simp [h1ne] at hpT2
      omega
    · have h1 : pairVotes r1.store T V = 0 := by
        simp [h0] at hpT1
        omega
      simp [h1] at hpT2
      omega

/-- Witness for claim C2 at a concrete store. -/
theorem claim2_witness :
    ∃ r1 r2, toggleVote demoStore 1 "bob" = some r1 ∧
      toggleVote r1.store 1 "bob" = some r2 ∧
      (getPost r2.store 1).map (fun q => q.points)
        = some (0 : Int) ∧
      (0 < pairVotes r2.store 1 "bob" ↔ 0 < pairVotes demoStore 1 "bob") :=
  claim2_toggle_twice demoStore 1 "bob"
    ⟨1, "alice", "hello", none, some "body", 0, 0, 5⟩
    (by constructor
        · decide
        · constructor
          · decide
          · decide)
    (by decide) (by decide)

/-- Claim C3: after any sequence of toggleVote operations starting from a
store with no vote records, every (post, voter) pair has at most one active
vote record, and for any further toggle the `isUpvoted` flag returned to the
caller is exactly the existence of the record after the call. -/
theorem claim3_at_most_one_vote (s : Store) (ops : List (Nat × String))
    (hwf : s.wf) (hempty : s.upvotes = []) :
    PairUnique (runToggles s ops) ∧
      ∀ t v res, toggleVote (runToggles s ops) t v = some res →
        (res.isUpvoted = true ↔ 0 < pairVotes res.store t v) := by
  have hpu0 : PairUnique s := by
    intro t v
    unfold pairVotes
    rw [hempty]
    simp
  obtain ⟨hwf2, hpu⟩ := runToggles_pairUnique ops s hwf hpu0
  refine ⟨hpu, ?_⟩
  intro t v res htv
  have hqex : ∃ q, getPost (runToggles s ops) t = some q := by
    cases hg : getPost (runToggles s ops) t with
    | none =>
      rw [(toggleVote_none_iff _ t v).2 hg] at htv
      cases htv
    | some q => exact ⟨q, rfl⟩
  obtain ⟨q, hq⟩ := hqex
  obtain ⟨res', htv', _, _, _, _, _, hpT, _, _, hflag, _⟩ :=
    toggle_success_spec (t := t) (v := v) hwf2 hq
  rw [htv] at htv'
  have hres : res' = res := by
    injection htv' with h'
    exact h'.symm
  subst hres
  have hb := hpu t v
  by_cases hz : pairVotes (runToggles s ops) t v = 0
  · simp [hz] at hpT hflag
    rw [hflag, hpT]
    simp
  · simp [hz] at hpT hflag
    rw [hflag]
    simp
    omega

/-- Witness for claim C3 at a concrete store and toggle sequence. -/
theorem claim3_witness :
    pairVotes (runToggles demoStore [(1, "bob"), (1, "carol"), (1, "bob")])
      1 "bob" ≤ 1 :=
  (claim3_at_most_one_vote demoStore [(1, "bob"), (1, "carol"), (1, "bob")]
    (by constructor
        · decide
        · constructor
          · decide
          · decide)
    (by decide)).1 1 "bob"

/-- Claim C4: toggleVote fails (HTTP 404, rendered NotFound) exactly when no
post with the target id exists, and on that failure the transaction rolls
back so the store is unchanged. -/
theorem claim4_notfound_rollback (s : Store) (t : Nat) (v : String) :
    (toggleVote s t v = none ↔ getPost s t = none) ∧
      (getPost s t = none → applyToggle s (t, v) = s) := by
  refine ⟨toggleVote_none_iff s t v, ?_⟩
  intro h
  have h2 : getPost s (t, v).1 = none := h
  exact applyToggle_of_none h2

/-- Witness for claim C4: post 2 does not exist in the demo store, the toggle
reports NotFound and the store is untouched. -/
theorem claim4_witness :
    toggleVote demoStore 2 "bob" = none ∧
      applyToggle demoStore (2, "bob") = demoStore :=
  ⟨(claim4_notfound_rollback demoStore 2 "bob").1.mpr (by decide),
   (claim4_notfound_rollback demoStore 2 "bob").2 (by decide)⟩

/-- Claim C5 (refuted by the code): the transaction reads vote existence from
`post_upvotes` BEFORE the UPDATE on the posts row, which is the statement
that takes the row lock, so the lock is not held during the existence check.
Under the READ COMMITTED schedule modelled by `racedDoubleToggle`, two
concurrent toggles by the same voter on a post that starts with points 0 and
no votes both observe no existing record and both increment: the final state
has points 2 and two duplicate vote records for the pair, while a sequential
double toggle of the same store returns the post to points 0 with no votes.
-/
theorem claim5_race_double_increment :
    (racedDoubleToggle demoStore 1 "bob").map
        (fun s => ((getPost s 1).map (fun p => p.points),
          votesFor s 1, pairVotes s 1 "bob"))
      = some (some 2, 2, 2) ∧
    ((getPost (runToggles demoStore [(1, "bob"), (1, "bob")]) 1).map
        (fun p => p.points),
      votesFor (runToggles demoStore [(1, "bob"), (1, "bob")]) 1)
      = (some 0, 0) := by
  constructor <;> rfl

/-- Claim C6 counterexample: a form with BOTH url and content present is
accepted by `createPostSchema` (its refinement is `data.url || data.content`,
not an exclusive-or), refuting that creation with both present is rejected. -/
theorem claim6_counterexample :
    createPostAccepts (fun _ => true) "abc"
      (some "https://example.com") (some "hi") = true := by rfl

/-- Claim C6 amended: when the title and url-format checks pass, the schema
accepts the form exactly when AT LEAST one of url and content is present and
javascript-truthy; in particular both absent is rejected, while both present
is accepted. -/
theorem claim6_amended_accepts (urlOk : String → Bool) (title : String)
    (url content : Option String)
    (htitle : 3 ≤ title.length) (hurl : urlFieldOk urlOk url = true) :
    createPostAccepts urlOk title url content = true
      ↔ (truthy (parsedUrl url) || truthy content) = true := by
  unfold createPostAccepts
  simp [htitle, hurl]

/-- Witness for the amended claim C6 at a concrete form. -/
theorem claim6_witness :
    createPostAccepts (fun _ => false) "abc" none (some "hi") = true
      ↔ (truthy (parsedUrl none) || truthy (some "hi")) = true :=
  claim6_amended_accepts (fun _ => false) "abc" none (some "hi")
    (by decide) (by rfl)

theorem getComment_eq_of_append {s : Store} {pid : Nat} {par : CommentRow}
    (h : getComment s pid = some par) (c : CommentRow) :
    ((s.comments ++ [c]).filter (fun x => x.id == pid)).head? = some par := by
  unfold getComment at h
  rw [List.filter_append, List.head?_append, h]
  rfl

/-- Claim C9: a comment created by createComment has depth 0 when top-level
and depth parent.depth + 1 when a reply; the depths of all existing comments
are untouched (never recomputed), and the depth invariant of the comments
table is preserved. -/
theorem claim9_comment_depth (s s' : Store) (authorId : String) (postId : Nat)
    (parent : Option Nat) (content : String) (cid : Nat)
    (hinv : DepthInv s)
    (h : createComment s authorId postId parent content = some (s', cid)) :
    DepthInv s' ∧ (∀ c ∈ s.comments, c ∈ s'.comments) ∧
      ∃ c ∈ s'.comments, c.id = cid ∧ c.parentCommentId = parent ∧
        (match parent with
         | none => c.depth = 0
         | some pid => ∃ par, getComment s pid = some par ∧
             c.depth = par.depth + 1) := by
  cases parent with
  | none =>
    cases hp : getPost s postId with
    | none => simp [createComment, hp] at h
    | some post =>
      simp only [createComment, hp, insertCommentRow, Option.some.injEq,
        Prod.mk.injEq] at h
      obtain ⟨hs', hcid⟩ := h
      subst hs'
      subst hcid
      refine ⟨?_, ?_, ?_⟩
      · intro c hc
        have hc2 : c ∈ s.comments ++
            [(⟨s.nextCommentId, authorId, postId, none, content, 0, 0, 0⟩
              : CommentRow)] := hc
        rcases List.mem_append.1 hc2 with hold | hnew
        · have hi := hinv c hold
          cases hpc : c.parentCommentId with
          | none =>
            rw [hpc] at hi
            exact hi
          | some pid =>
            rw [hpc] at hi
            obtain ⟨par, hpar, hd⟩ := hi
            exact ⟨par, getComment_eq_of_append hpar _, hd⟩
        · have hcc : c = ⟨s.nextCommentId, authorId, postId, none, content,
              0, 0, 0⟩ := by simpa using hnew
          rw [hcc]
      · intro c hc
        exact List.mem_append_left _ hc
      · refine ⟨⟨s.nextCommentId, authorId, postId, none, content, 0, 0, 0⟩,
          ?_, rfl, rfl, rfl⟩
        exact List.mem_append_right _ (List.mem_singleton.2 rfl)
  | some pid =>
    cases hp : getPost s postId with
    | none => simp [createComment, hp] at h
    | some post =>
      cases hpar : getComment s pid with
      | none => simp [createComment, hp, hpar] at h
      | some par =>
        simp only [createComment, hp, hpar, insertCommentRow,
          Option.some.injEq, Prod.mk.injEq] at h
        obtain ⟨hs', hcid⟩ := h
        subst hs'
        subst hcid
        refine ⟨?_, ?_, ?_⟩
        · intro c hc
          have hc2 : c ∈ s.comments ++
              [(⟨s.nextCommentId, authorId, postId, some pid, content,
                par.depth + 1, 0, 0⟩ : CommentRow)] := hc
          rcases List.mem_append.1 hc2 with hold | hnew
          · have hi := hinv c hold
            cases hpc : c.parentCommentId with
            | none =>
              rw [hpc] at hi
              exact hi
            | some pid2 =>
              rw [hpc] at hi
              obtain ⟨par2, hpar2, hd2⟩ := hi
              exact ⟨par2, getComment_eq_of_append hpar2 _, hd2⟩
          · have hcc : c = ⟨s.nextCommentId, authorId, postId, some pid,
                content, par.depth + 1, 0, 0⟩ := by simpa using hnew
            rw [hcc]
            exact ⟨par, getComment_eq_of_append hpar _, rfl⟩
        · intro c hc
          exact List.mem_append_left _ hc
        · refine ⟨⟨s.nextCommentId, authorId, postId, some pid, content,
            par.depth + 1, 0, 0⟩, ?_, rfl, rfl, par, hpar, rfl⟩
          exact List.mem_append_right _ (List.mem_singleton.2 rfl)

/-- Witness for claim C9: bob posts a top-level comment on post 1 of the
demo store. -/
theorem claim9_witness :
    DepthInv demoStoreAfterComment ∧
      (∀ c ∈ demoStore.comments, c ∈ demoStoreAfterComment.comments) ∧
      ∃ c ∈ demoStoreAfterComment.comments, c.id = 1 ∧
        c.parentCommentId = none ∧ c.depth = 0 :=
  claim9_comment_depth demoStore demoStoreAfterComment "bob" 1 none "top" 1
    (by intro c hc; simp [demoStore] at hc) (by rfl)

/-- Claim C10: with all pagination parameters omitted, the zod defaults are
limit 10, page 1, sortBy points, order asc, and the default listing is
therefore sorted by points ascending (lowest-scored posts first). -/
theorem claim10_default_sort :
    parsePagination none none none none none none
        = ⟨10, 1, SortBy.points, OrderBy.asc, none, none⟩ ∧
      ∀ (s : Store) (user : Option String),
        ((listPosts s (parsePagination none none none none none none)
            user).data).Pairwise (fun a b => a.points ≤ b.points) := by
  refine ⟨rfl, ?_⟩
  intro s user
  have htrans : ∀ (a b c : PostView),
      sortLe SortBy.points OrderBy.asc a b = true →
      sortLe SortBy.points OrderBy.asc b c = true →
      sortLe SortBy.points OrderBy.asc a c = true := by
    intro a b c hab hbc
    simp only [sortLe, decide_eq_true_eq] at hab hbc ⊢
    exact le_trans hab hbc
  have htotal : ∀ (a b : PostView),
      (sortLe SortBy.points OrderBy.asc a b
        || sortLe SortBy.points OrderBy.asc b a) = true := by
    intro a b
    simp only [sortLe, Bool.or_eq_true, decide_eq_true_eq]
    exact Int.le_total a.points b.points
  simp only [listPosts, parsePagination]
  apply List.Pairwise.sublist (List.take_sublist _ _)
  apply List.Pairwise.sublist (List.drop_sublist _ _)
  exact List.Pairwise.imp
    (fun hab => by simpa [sortLe] using hab)
    (List.sorted_mergeSort htrans htotal _)

theorem joinedRows_eq_postView {s : Store} (hpu : PairUnique s)
    (user : Option String) (p : PostRow) :
    joinedRows s user p = [postView s user p] := by
  cases user with
  | none => rfl
  | some uid =>
    unfold joinedRows postView
    simp only []
    have hlen : (s.upvotes.filter
        (fun r => r.postId == p.id && r.userId == uid)).length
        = pairVotes s p.id uid := rfl
    by_cases hms : (s.upvotes.filter
        (fun r => r.postId == p.id && r.userId == uid)).isEmpty = true
    · have h0 : pairVotes s p.id uid = 0 := by
        rw [← hlen]
        rw [List.isEmpty_iff] at hms
        rw [hms]
        rfl
      rw [if_pos hms]
      simp [h0]
    · have h1 : pairVotes s p.id uid = 1 := by
        have hge : 1 ≤ pairVotes s p.id uid := by
          rw [← hlen]
          rw [List.isEmpty_iff] at hms
          cases hcase : s.upvotes.filter
              (fun r => r.postId == p.id && r.userId == uid) with
          | nil => exact absurd hcase hms
          | cons a l => simp
        have hle := hpu p.id uid
        omega
      obtain ⟨a, ha⟩ := List.length_eq_one.1 (hlen.trans h1)
      rw [if_neg hms, ha]
      simp [h1]

theorem flatMap_joinedRows_eq_map {s : Store} (hpu : PairUnique s)
    (user : Option String) (l : List PostRow) :
    l.flatMap (joinedRows s user) = l.map (postView s user) := by
  induction l with
  | nil => rfl
  | cons p ps ih =>
    rw [List.flatMap_cons, joinedRows_eq_postView hpu, ih]
    rfl

theorem countQuery_eq_length {s : Store}
    (hwf : s.posts.Pairwise (fun a b => a.id ≠ b.id))
    (author site : Option String) :
    countQuery s author site
      = (s.posts.filter (postPred author site)).length := by
  unfold countQuery
  have hsub : (s.posts.filter (postPred author site)).Pairwise
      (fun a b => a.id ≠ b.id) :=
    List.Pairwise.sublist (List.filter_sublist _) hwf
  have hnd : ((s.posts.filter (postPred author site)).map
      (fun p => p.id)).Nodup :=
    List.Pairwise.map _ (fun a b h => h) hsub
  rw [List.dedup_eq_self.2 hnd, List.length_map]

theorem totalPages_ceil {count limit : Nat} (hl : 0 < limit) :
    count ≤ ((count + limit - 1) / limit) * limit ∧
      ((count + limit - 1) / limit) * limit < count + limit := by
  have h1 := Nat.div_add_mod (count + limit - 1) limit
  have h2 := Nat.mod_lt (count + limit - 1) hl
  rw [Nat.mul_comm] at h1
  constructor <;> omega

/-- Claim C7: for every filter, limit > 0 and page >= 1, on a store whose
post ids are distinct and in which the at-most-one-vote invariant holds, the
page returned by listPosts is exactly the slice of the filtered sorted rows
starting at offset (page - 1) * limit, with at most limit rows; the total
count is computed with the same filter predicate as the page query, and
totalPages is the ceiling of count / limit (characterised by the two bounds
count <= totalPages * limit < count + limit). -/
theorem claim7_pagination (s : Store) (q : PaginationQuery)
    (user : Option String) (hwf : s.wf) (hpu : PairUnique s)
    (hl : 0 < q.limit) (_hp : 1 ≤ q.page) :
    (listPosts s q user).data
        = ((((s.posts.filter (postPred q.author q.site)).map
            (postView s user)).mergeSort (sortLe q.sortBy q.order)).drop
              ((q.page - 1) * q.limit)).take q.limit ∧
      (listPosts s q user).data.length ≤ q.limit ∧
      countQuery s q.author q.site
        = (s.posts.filter (postPred q.author q.site)).length ∧
      countQuery s q.author q.site
        ≤ (listPosts s q user).totalPages * q.limit ∧
      (listPosts s q user).totalPages * q.limit
        < countQuery s q.author q.site + q.limit := by
  have hdata : (listPosts s q user).data
      = ((((s.posts.filter (postPred q.author q.site)).map
          (postView s user)).mergeSort (sortLe q.sortBy q.order)).drop
            ((q.page - 1) * q.limit)).take q.limit := by
    unfold listPosts
    simp only []
    rw [flatMap_joinedRows_eq_map hpu]
  refine ⟨hdata, ?_, countQuery_eq_length hwf.1 q.author q.site, ?_, ?_⟩
  · rw [hdata]
    exact List.length_take_le _ _
  · exact (totalPages_ceil hl).1
  · exact (totalPages_ceil hl).2

/-- Witness for claim C7: page 2 with limit 2 of the three-post demo store. -/
theorem claim7_witness :
    (listPosts listDemoStore ⟨2, 2, SortBy.points, OrderBy.asc, none, none⟩
        none).data
        = ((((listDemoStore.posts.filter (postPred none none)).map
            (postView listDemoStore none)).mergeSort
              (sortLe SortBy.points OrderBy.asc)).drop ((2 - 1) * 2)).take 2 ∧
      (listPosts listDemoStore ⟨2, 2, SortBy.points, OrderBy.asc, none, none⟩
        none).data.length ≤ 2 ∧
      countQuery listDemoStore none none
        = (listDemoStore.posts.filter (postPred none none)).length ∧
      countQuery listDemoStore none none
        ≤ (listPosts listDemoStore
            ⟨2, 2, SortBy.points, OrderBy.asc, none, none⟩ none).totalPages * 2 ∧
      (listPosts listDemoStore ⟨2, 2, SortBy.points, OrderBy.asc, none, none⟩
          none).totalPages * 2
        < countQuery listDemoStore none none + 2 :=
  claim7_pagination listDemoStore ⟨2, 2, SortBy.points, OrderBy.asc, none, none⟩
    none
    (by constructor
        · decide
        · constructor
          · decide
          · decide)
    (by intro t v; exact List.length_filter_le _ _)
    (by decide) (by decide)

theorem mem_listPosts_data {s : Store} {q : PaginationQuery}
    {user : Option String} {row : PostView}
    (h : row ∈ (listPosts s q user).data) :
    ∃ p ∈ s.posts.filter (postPred q.author q.site),
      row ∈ joinedRows s user p := by
  unfold listPosts at h
  simp only [] at h
  have h1 := (List.take_sublist _ _).subset h
  have h2 := (List.drop_sublist _ _).subset h1
  have h3 := List.mem_mergeSort.1 h2
  obtain ⟨p, hp, hrow⟩ := List.mem_flatMap.1 h3
  exact ⟨p, hp, hrow⟩

/-- Claim C8: in every row returned by listPosts, isUpvoted is false when no
requesting actor is present; when an actor is present, isUpvoted is true
exactly when an active vote record by that actor on that post exists (an
existence check, not a counter). -/
theorem claim8_isUpvoted (s : Store) (q : PaginationQuery) :
    (∀ row ∈ (listPosts s q none).data, row.isUpvoted = false) ∧
      ∀ (u : String), ∀ row ∈ (listPosts s q (some u)).data,
        (row.isUpvoted = true ↔
          ∃ r ∈ s.upvotes, r.postId = row.id ∧ r.userId = u) := by
  constructor
  · intro row hrow
    obtain ⟨p, _, hmem⟩ := mem_listPosts_data hrow
    have : row = ⟨p.id, p.title, p.url, p.points, p.content, p.createdAt,
        p.commentCount,
        (s.users.find? (fun ur => ur.1 == p.userId)).map
          (fun ur => (ur.2, ur.1)), false⟩ := by
      simpa [joinedRows] using hmem
    rw [this]
  · intro u row hrow
    obtain ⟨p, _, hmem⟩ := mem_listPosts_data hrow
    unfold joinedRows at hmem
    simp only [] at hmem
    by_cases hms : (s.upvotes.filter
        (fun r => r.postId == p.id && r.userId == u)).isEmpty = true
    · rw [if_pos hms] at hmem
      have hrow2 : row = ⟨p.id, p.title, p.url, p.points, p.content,
          p.createdAt, p.commentCount,
          (s.users.find? (fun ur => ur.1 == p.userId)).map
            (fun ur => (ur.2, ur.1)), false⟩ := by
        simpa using hmem
      rw [hrow2]
      simp only []
      constructor
      · intro hc
        cases hc
      · rintro ⟨r, hr, hrp, hru⟩
        rw [List.isEmpty_iff] at hms
        have : r ∈ s.upvotes.filter
            (fun x => x.postId == p.id && x.userId == u) := by
          rw [List.mem_filter]
          refine ⟨hr, ?_⟩
          simp only [Bool.and_eq_true, beq_iff_eq]
          exact ⟨hrp, hru⟩
        rw [hms] at this
        cases this
    · rw [if_neg hms] at hmem
      obtain ⟨r0, hr0, hrow2⟩ := List.mem_map.1 hmem
      have hrow3 : row = ⟨p.id, p.title, p.url, p.points, p.content,
          p.createdAt, p.commentCount,
          (s.users.find? (fun ur => ur.1 == p.userId)).map
            (fun ur => (ur.2, ur.1)), true⟩ := hrow2.symm
      rw [hrow3]
      simp only [true_iff]
      have hr0f := List.mem_filter.1 hr0
      have hr0c := hr0f.2
      simp only [Bool.and_eq_true, beq_iff_eq] at hr0c
      exact ⟨r0, hr0f.1, hr0c.1, hr0c.2⟩

/-- Witness for claim C8: the row of post 2 in the default listing requested
by bob carries isUpvoted exactly when bob has an active vote record on post
2 in the demo store. -/
theorem claim8_witness :
    ((⟨2, "b", none, 1, some "x", 11, 0, some ("Alice", "alice"), true⟩
        : PostView).isUpvoted = true ↔
      ∃ r ∈ listDemoStore.upvotes, r.postId
          = (⟨2, "b", none, 1, some "x", 11, 0, some ("Alice", "alice"), true⟩
            : PostView).id ∧ r.userId = "bob") :=
  (claim8_isUpvoted listDemoStore
      ⟨10, 1, SortBy.points, OrderBy.asc, none, none⟩).2 "bob"
    ⟨2, "b", none, 1, some "x", 11, 0, some ("Alice", "alice"), true⟩
    (by
      unfold listPosts
      simp only [Nat.sub_self, Nat.zero_mul, List.drop_zero]
      rw [List.take_of_length_le (by rw [List.length_mergeSort]; decide)]
      rw [List.mem_mergeSort]
      decide)

end BetterNews
